import Mathlib

/-!
Verification development for the cloudcanal/connect browser coordination
library: a tiered key-value StateStore (src/state.ts), an event multiplexer
(bundled events module in dist output), and the resource-backed realtime
subscription lifecycle (EventBus bookkeeping, with src/db.ts providing the
enable/disable ResourceBinding implementation).

The embedding mirrors the TypeScript source. Stored values are opaque; the
distinguished JavaScript value `undefined` is represented explicitly because
the store treats it specially. Persisted records are JSON strings, modelled
as either a well-formed encoding of a record or a malformed blob, exactly
the two outcomes JSON.parse distinguishes. Mutating operations thread an
explicit state; emitted events are appended to a log. The get/remove pair in
src/state.ts is mutually recursive (get on an expired memory entry calls
remove, which calls get), so the embedding takes a fuel parameter: `none`
means the call stack grew without bound at that depth.
-/

/-- A JavaScript value as stored by the state module: either `undefined`
or an opaque defined payload (represented by a natural number). -/
inductive JsVal where
  | undef
  | val (n : Nat)
deriving DecidableEq, Repr

/-- The StoredValue record of src/state.ts: a payload plus an optional
expiry timestamp (milliseconds). -/
structure StoredValue where
  value : JsVal
  expiry : Option Nat
deriving DecidableEq, Repr

/-- A raw persisted record: JSON.parse either succeeds and yields a
StoredValue, or throws (malformed JSON). -/
inductive Raw where
  | enc (sv : StoredValue)
  | malformed
deriving DecidableEq, Repr

/-- The persist option of src/state.ts: the two persistent backends. -/
inductive Persist where
  | session
  | loc
deriving DecidableEq, Repr

/-- StateOptions of src/state.ts: optional persist tier and optional ttl. -/
structure StateOptions where
  persist : Option Persist := none
  ttl : Option Nat := none
deriving DecidableEq, Repr

/-- One emitted state change event: name is the string passed to
events.emit, payload carries value and oldValue. -/
structure Emission where
  name : String
  value : JsVal
  oldValue : JsVal
deriving DecidableEq, Repr

/-- The mutable world of src/state.ts: the memory Map, the availability of
window (both storages exist iff window does), the two storage backends
(keys already stripped of the fixed cc: prefix, which is a bijective
renaming), and the log of events emitted so far. -/
structure St where
  window : Bool
  mem : List (String × StoredValue)
  sess : List (String × Raw)
  loc : List (String × Raw)
  log : List Emission
deriving DecidableEq, Repr

/-- Association list lookup keyed by string, mirroring Map.get and
storage.getItem. -/
def kfind {α : Type} : List (String × α) → String → Option α
  | [], _ => none
  | (k2, v) :: rest, k => if k2 == k then some v else kfind rest k

/-- Removal of every binding for a key, mirroring Map.delete and
storage.removeItem. -/
def kerase {α : Type} (l : List (String × α)) (k : String) : List (String × α) :=
  l.filter (fun p => p.1 != k)

/-- Overwriting insert, mirroring Map.set and storage.setItem. -/
def kset {α : Type} (l : List (String × α)) (k : String) (v : α) : List (String × α) :=
  kerase l k ++ [(k, v)]

/-- isExpired of src/state.ts: an entry is expired when it has an expiry
and now is strictly past it. -/
def isExpired (sv : StoredValue) (now : Nat) : Bool :=
  match sv.expiry with
  | some e => e < now
  | none => false

/-- The expiry computed by set: `ttl ? Date.now() + ttl : undefined`.
A ttl of 0 is falsy in JavaScript, so it yields no expiry. -/
def expiryOf (ttl : Option Nat) (now : Nat) : Option Nat :=
  match ttl with
  | some t => if t = 0 then none else some (now + t)
  | none => none

/-- Read the raw record for a key from one persistent tier. -/
def readTier (s : St) (p : Persist) (k : String) : Option Raw :=
  match p with
  | .session => kfind s.sess k
  | .loc => kfind s.loc k

/-- Remove the record for a key from one persistent tier. -/
def purgeTier (s : St) (p : Persist) (k : String) : St :=
  match p with
  | .session => { s with sess := kerase s.sess k }
  | .loc => { s with loc := kerase s.loc k }

/-- One iteration of the persistent-store loop in state.get: returns the
found value (or none to continue) and the possibly-updated state. A
missing storage (no window) or a missing record yields none. A record
that fails to decode yields none WITHOUT purging (state.ts getFromStorage
returns null from its catch and the caller falls through). An expired
record is purged from this tier and the search continues. -/
def tierGet (s : St) (p : Persist) (k : String) (now : Nat) : Option JsVal × St :=
  if s.window then
    match readTier s p k with
    | none => (none, s)
    | some .malformed => (none, s)
    | some (.enc sv) =>
      if isExpired sv now then (none, purgeTier s p k)
      else (some sv.value, s)
  else (none, s)

/-- The body of state.remove after its internal get returned `old` in
state s1: if old is undefined it is a no-op; otherwise the key is deleted
from memory and (when window exists) from both storages, and one change
event with value undefined is emitted. -/
def removeBody (s1 : St) (k : String) (old : JsVal) : St :=
  if old = JsVal.undef then s1
  else
    let s2 := { s1 with mem := kerase s1.mem k }
    let s3 := if s2.window then { s2 with sess := kerase s2.sess k, loc := kerase s2.loc k } else s2
    { s3 with log := s3.log ++ [⟨"state:" ++ k, JsVal.undef, old⟩] }

/-- state.get of src/state.ts, with fuel bounding the call-stack depth of
the mutual get/remove recursion. Memory is consulted first; an expired
memory entry triggers `this.remove(key)` (whose body begins with another
`this.get(key)` — inlined here) and then returns undefined. Otherwise the
session tier and then the local tier are consulted via tierGet. -/
def getF : Nat → St → String → Nat → Option (JsVal × St)
  | 0, _, _, _ => none
  | fuel + 1, s, k, now =>
    match kfind s.mem k with
    | some sv =>
      if isExpired sv now then
        match getF fuel s k now with
        | none => none
        | some (old, s1) => some (JsVal.undef, removeBody s1 k old)
      else some (sv.value, s)
    | none =>
      match tierGet s .session k now with
      | (some v, s1) => some (v, s1)
      | (none, s1) =>
        match tierGet s1 .loc k now with
        | (some v, s2) => some (v, s2)
        | (none, s2) => some (JsVal.undef, s2)

/-- state.remove of src/state.ts: reads the old value via get (consuming
one unit of fuel for the nested call), then applies removeBody. -/
def removeF : Nat → St → String → Nat → Option St
  | 0, _, _, _ => none
  | fuel + 1, s, k, now =>
    match getF fuel s k now with
    | none => none
    | some (old, s1) => some (removeBody s1 k old)

/-- state.set of src/state.ts: reads the old value via get, builds the
StoredValue, writes to the requested storage (deleting any memory copy)
when the storage exists, otherwise writes to memory; then emits one
change event. -/
def setF (fuel : Nat) (s : St) (k : String) (v : JsVal) (opts : StateOptions) (now : Nat) :
    Option St :=
  match getF fuel s k now with
  | none => none
  | some (old, s1) =>
    let sv : StoredValue := ⟨v, expiryOf opts.ttl now⟩
    let s2 :=
      if s1.window then
        match opts.persist with
        | some .session => { s1 with sess := kset s1.sess k (.enc sv), mem := kerase s1.mem k }
        | some .loc => { s1 with loc := kset s1.loc k (.enc sv), mem := kerase s1.mem k }
        | none => { s1 with mem := kset s1.mem k sv }
      else { s1 with mem := kset s1.mem k sv }
    some { s2 with log := s2.log ++ [⟨"state:" ++ k, v, old⟩] }

/-- state.has of src/state.ts: `this.get(key) !== undefined`. -/
def hasF (fuel : Nat) (s : St) (k : String) (now : Nat) : Option Bool :=
  (getF fuel s k now).map (fun r => r.1 != JsVal.undef)

/-- state.clear of src/state.ts: empties the memory store, and (when
window exists) removes every prefixed key from both storages; emits no
events. -/
def clearF (s : St) : St :=
  { s with
    mem := []
    sess := if s.window then [] else s.sess
    loc := if s.window then [] else s.loc }

/-- True when the memory entry for a key, if any, is not expired: the
precondition under which the get/remove recursion terminates. -/
def memOkB (s : St) (k : String) (now : Nat) : Bool :=
  match kfind s.mem k with
  | some sv => !(isExpired sv now)
  | none => true

/-- True when the memory entry for the key exists and is expired: the
input on which state.get diverges. -/
def memExpiredB (s : St) (k : String) (now : Nat) : Bool :=
  match kfind s.mem k with
  | some sv => isExpired sv now
  | none => false

/-!
Events module, embedded from the bundled events object (part_000 lines
196-250): a Map from event name to an insertion-ordered Set of handlers.
Handlers are identity-compared tokens (naturals). Because a handler body
can mutate the registry (the once wrapper unsubscribes itself), handler
behaviour is given by a fixed environment mapping each token to a small
behaviour language: a plain callback that may throw, or the once wrapper,
whose body is `off(eventName, wrapper); handler(payload)`.
-/

/-- Behaviour of one handler token: a plain callback (which may throw), or
the closure created by events.once, wrapping an inner callback. -/
inductive HandlerBeh where
  | plain (throws : Bool)
  | wrapper (ev : String) (selfTok : Nat) (inner : Nat) (innerThrows : Bool)
deriving DecidableEq, Repr

/-- The events module state: the handlers Map (name to insertion-ordered
token list, mirroring a JS Set), the trace of callback invocations (token
paired with payload, in order), and the log of caught handler exceptions
(the console.error reports). -/
structure EvState where
  handlers : List (String × List Nat)
  trace : List (Nat × Nat)
  errors : List Nat
deriving DecidableEq, Repr

/-- events.on: create the Set on first use, then add (a Set add is a no-op
when the handler is already present). -/
def onE (st : EvState) (name : String) (h : Nat) : EvState :=
  match kfind st.handlers name with
  | none => { st with handlers := st.handlers ++ [(name, [h])] }
  | some hs =>
    if h ∈ hs then st
    else { st with handlers := kset st.handlers name (hs ++ [h]) }

/-- events.off: delete the handler from the Set for that name, if any. -/
def offE (st : EvState) (name : String) (h : Nat) : EvState :=
  match kfind st.handlers name with
  | none => st
  | some hs => { st with handlers := kset st.handlers name (hs.filter (fun x => x != h)) }

/-- Run one handler inside the emit try/catch: a plain handler is invoked
(recorded in the trace) and a thrown exception is caught and reported; a
once wrapper first unsubscribes itself, then invokes the wrapped callback
with the payload, its exception likewise caught by emit. -/
def invokeE (beh : Nat → HandlerBeh) (st : EvState) (h : Nat) (p : Nat) : EvState :=
  match beh h with
  | .plain thr =>
    let st1 := { st with trace := st.trace ++ [(h, p)] }
    if thr then { st1 with errors := st1.errors ++ [h] } else st1
  | .wrapper ev selfTok inner innerThrows =>
    let st1 := offE st ev selfTok
    let st2 := { st1 with trace := st1.trace ++ [(inner, p)] }
    if innerThrows then { st2 with errors := st2.errors ++ [inner] } else st2

/-- The forEach loop of events.emit over the snapshot of handler tokens,
with the live-set check of JS Set iteration: a handler deleted before
being visited is skipped. -/
def emitGo (beh : Nat → HandlerBeh) : List Nat → EvState → String → Nat → EvState
  | [], st, _, _ => st
  | h :: rest, st, name, p =>
    if h ∈ (kfind st.handlers name).getD [] then
      emitGo beh rest (invokeE beh st h p) name p
    else emitGo beh rest st name p

/-- events.emit: no handler Set means return immediately; otherwise run
the forEach fan-out. Total: no exception escapes to the emitter. -/
def emitE (beh : Nat → HandlerBeh) (st : EvState) (name : String) (p : Nat) : EvState :=
  match kfind st.handlers name with
  | none => st
  | some hs => emitGo beh hs st name p

/-- Whether a token is a plain handler that throws (used to describe the
error log produced by a fan-out). -/
def behThrows (beh : Nat → HandlerBeh) (h : Nat) : Bool :=
  match beh h with
  | .plain true => true
  | _ => false

/-!
Resource-backed subscription lifecycle. The EventBus bookkeeping lives in
src/events.ts, which is not present under src/ (only its caller src/db.ts
and the stale bundled build are); the definitions below are therefore
modelled from the spec. The ResourceBinding boundary is src/db.ts
enableRealtime/disableRealtime: the model logs each call issued across it.
-/

/-- Modelled from the spec: the per-resource bookkeeping of the missing
EventBus (src/events.ts): refcount per resource id aggregated across all
actions, the pendingEnable flag, the to-be-discarded mark for a pending
enable whose count returned to 0, the set of confirmed-live resources,
and logs of the enable/disable calls issued to the ResourceBinding
(src/db.ts enableRealtime/disableRealtime) plus the enables confirmed so
far. -/
structure BusState where
  counts : List (String × Nat)
  pending : List String
  discard : List String
  live : List String
  enableCalls : List String
  disableCalls : List String
  confirms : List String
deriving DecidableEq, Repr

/-- Modelled from the spec: the initial bus state (all resources Idle). -/
def initialBus : BusState := ⟨[], [], [], [], [], [], []⟩

/-- Split a character list on a separator character (the list of segments
between occurrences of the separator, like String.split). -/
def splitOnChar (c : Char) : List Char → List (List Char)
  | [] => [[]]
  | a :: rest =>
    let r := splitOnChar c rest
    if a == c then [] :: r
    else
      match r with
      | [] => [[a]]
      | g :: gs => (a :: g) :: gs

/-- Modelled from the spec: the resource-backed event name grammar
`resource:id:action` or `resource:id:action:subId`; parsing yields the
resource id, any other name is an opaque custom event. -/
def parseResource (name : String) : Option String :=
  match splitOnChar ':' name.data with
  | [r, id, _] => if r = "resource".data then some ⟨id⟩ else none
  | [r, id, _, _] => if r = "resource".data then some ⟨id⟩ else none
  | _ => none

/-- Modelled from the spec: subscription bookkeeping for one listener on a
resource id. The count is incremented; a 0 to 1 transition with no enable
in flight and no live handle issues exactly one enable call and enters
Enabling; a 0 to 1 transition while an enable is still pending merely
cancels any to-be-discarded mark; further listeners only increment. -/
def subOn (st : BusState) (id : String) : BusState :=
  let c := (kfind st.counts id).getD 0
  let st1 := { st with counts := kset st.counts id (c + 1) }
  if c = 0 then
    if id ∈ st1.pending then { st1 with discard := st1.discard.filter (fun x => x != id) }
    else if id ∈ st1.live then st1
    else { st1 with pending := st1.pending ++ [id], enableCalls := st1.enableCalls ++ [id] }
  else st1

/-- Modelled from the spec: unsubscription bookkeeping for one listener on
a resource id. The count is decremented; when it reaches 0 while Live,
exactly one disable call is issued; when it reaches 0 while Enabling, the
pending enable is marked to be discarded and no disable is issued yet. -/
def subOff (st : BusState) (id : String) : BusState :=
  let c := (kfind st.counts id).getD 0
  if c = 0 then st
  else
    let st1 := { st with counts := kset st.counts id (c - 1) }
    if c - 1 = 0 then
      if id ∈ st1.live then
        { st1 with live := st1.live.filter (fun x => x != id)
                   disableCalls := st1.disableCalls ++ [id] }
      else if id ∈ st1.pending then
        { st1 with discard := if id ∈ st1.discard then st1.discard else st1.discard ++ [id] }
      else st1
    else st1

/-- Modelled from the spec: resolution of a pending enable. The enable is
confirmed; if the resource was marked to be discarded the bus immediately
issues the matching disable instead of transitioning to Live; otherwise
the resource becomes Live. A resolution for a resource with no pending
enable changes nothing. -/
def resolveEnable (st : BusState) (id : String) : BusState :=
  if id ∈ st.pending then
    let st1 := { st with pending := st.pending.filter (fun x => x != id)
                         confirms := st.confirms ++ [id] }
    if id ∈ st1.discard then
      { st1 with discard := st1.discard.filter (fun x => x != id)
                 disableCalls := st1.disableCalls ++ [id] }
    else { st1 with live := st1.live ++ [id] }
  else st

/-- Modelled from the spec: events.on for an arbitrary event name; only
names matching the resource grammar touch the lifecycle bookkeeping. -/
def busOn (st : BusState) (name : String) : BusState :=
  match parseResource name with
  | some id => subOn st id
  | none => st

/-- Modelled from the spec: events.off for an arbitrary event name. -/
def busOff (st : BusState) (name : String) : BusState :=
  match parseResource name with
  | some id => subOff st id
  | none => st

/-- An observable lifecycle step: a subscription, an unsubscription, or
the asynchronous resolution of a pending enable call. -/
inductive BusOp where
  | sub (name : String)
  | unsub (name : String)
  | resolve (id : String)
deriving DecidableEq, Repr

/-- Apply one lifecycle step. -/
def busStep (st : BusState) : BusOp → BusState
  | .sub name => busOn st name
  | .unsub name => busOff st name
  | .resolve id => resolveEnable st id

/-- Run a sequence of lifecycle steps from a starting state. -/
def busExec (ops : List BusOp) (st : BusState) : BusState :=
  ops.foldl busStep st

/-- Number of occurrences of a string in a list. -/
def occ (x : String) : List String → Nat
  | [] => 0
  | y :: rest => (if y = x then 1 else 0) + occ x rest

/-- The disable-safety invariant: for every resource, the number of
disable calls issued so far, plus one if the resource is currently held
Live, never exceeds the number of confirmed enables. In particular
disable is never called on a resource whose enable was never confirmed. -/
def busInv (st : BusState) : Prop :=
  ∀ i : String,
    occ i st.disableCalls + (if i ∈ st.live then 1 else 0) ≤ occ i st.confirms

/-!
Concrete instances used by counterexamples and witnesses.
-/

/-- A state whose memory tier holds an expired entry for key k. -/
def sC3 : St := ⟨true, [("k", ⟨JsVal.val 1, some 10⟩)], [], [], []⟩

/-- A state whose session tier holds a malformed record for key k and
whose local tier holds a valid one. -/
def sC4 : St := ⟨true, [], [("k", Raw.malformed)], [("k", Raw.enc ⟨JsVal.val 7, none⟩)], []⟩

/-- True when the session record for a key, if present and well-formed, is
not expired (so a get will not purge it in passing). -/
def sessOkB (s : St) (k : String) (now : Nat) : Bool :=
  match kfind s.sess k with
  | some (Raw.enc sv) => !(isExpired sv now)
  | _ => true

/-- A state with no window: both persistent storages unavailable. -/
def sC6 : St := ⟨false, [], [], [], []⟩

/-- The state reached from sC6 by a set of k directed at the local tier:
the value lands in the memory store. -/
def sC6r : St := ⟨false, [("k", ⟨JsVal.val 5, none⟩)], [], [], [⟨"state:k", JsVal.val 5, JsVal.undef⟩]⟩

/-- Three plain handlers of which the middle one throws. -/
def behC7 : Nat → HandlerBeh := fun h => HandlerBeh.plain (h == 2)

/-- An events state with three handlers registered for one event. -/
def stC7 : EvState := ⟨[("evt", [1, 2, 3])], [], []⟩

/-- Token 0 is the wrapper created by once("evt", cb) around the plain
callback token 1. -/
def behC8 : Nat → HandlerBeh := fun h =>
  if h == 0 then HandlerBeh.wrapper "evt" 0 1 false else HandlerBeh.plain false

/-- An empty events state. -/
def stC8 : EvState := ⟨[], [], []⟩

/-- A state with one live memory entry for key k. -/
def sC9 : St := ⟨true, [("k", ⟨JsVal.val 5, none⟩)], [], [], []⟩

/-- A state with a live session copy of key k and nothing else. -/
def sC10 : St := ⟨true, [], [("k", Raw.enc ⟨JsVal.val 5, none⟩)], [], []⟩

/-- The state reached from sC10 by setting k to undefined in the local
tier: the session copy survives and shadows it. -/
def sC10r : St :=
  ⟨true, [], [("k", Raw.enc ⟨JsVal.val 5, none⟩)], [("k", Raw.enc ⟨JsVal.undef, none⟩)],
    [⟨"state:k", JsVal.undef, JsVal.val 5⟩]⟩

/-- An empty state with window available. -/
def sC10w : St := ⟨true, [], [], [], []⟩

/-!
Theorems. Claims are stated over the embedded operations; general
statements carry the termination precondition memOkB (no expired memory
entry for the key), which claim C3 shows is exactly the boundary of the
get/remove recursion.
-/

/-- Lookup in a list with every binding for the key erased finds nothing. -/
theorem kfind_kerase_self {α : Type} (l : List (String × α)) (k : String) :
    kfind (kerase l k) k = none := by
  induction l with
  | nil => rfl
  | cons a rest ih =>
    obtain ⟨k2, v⟩ := a
    by_cases h : k2 = k
    · simpa [kerase, List.filter_cons, h] using ih
    · simpa [kerase, List.filter_cons, h, kfind] using ih

/-- Lookup distributes over append when the first part misses. -/
theorem kfind_append_of_none {α : Type} {l1 : List (String × α)} (l2 : List (String × α))
    (k : String) (h : kfind l1 k = none) : kfind (l1 ++ l2) k = kfind l2 k := by
  induction l1 with
  | nil => rfl
  | cons a rest ih =>
    obtain ⟨k2, v⟩ := a
    simp only [kfind, List.cons_append] at h ⊢
    by_cases hk : (k2 == k) = true
    · rw [if_pos hk] at h
      cases h
    · rw [if_neg hk] at h ⊢
      exact ih h

/-- Lookup after an overwriting insert finds the inserted value. -/
theorem kfind_kset_self {α : Type} (l : List (String × α)) (k : String) (v : α) :
    kfind (kset l k v) k = some v := by
  unfold kset
  rw [kfind_append_of_none _ _ (kfind_kerase_self l k)]
  simp [kfind]

/-- A value never survives filtering for values different from itself. -/
theorem not_mem_filter_ne (l : List String) (x : String) :
    x ∉ l.filter (fun y => y != x) := by
  simp [List.mem_filter]

/-- tierGet never changes window, the memory store, or the event log. -/
theorem tierGet_frame (s : St) (p : Persist) (k : String) (now : Nat) :
    (tierGet s p k now).2.window = s.window ∧ (tierGet s p k now).2.mem = s.mem ∧
      (tierGet s p k now).2.log = s.log := by
  unfold tierGet purgeTier
  cases p <;> split <;> (try split) <;> (try split) <;> simp_all

/-- tierGet on the local tier never changes the session store. -/
theorem tierGet_loc_sess (s : St) (k : String) (now : Nat) :
    (tierGet s Persist.loc k now).2.sess = s.sess := by
  unfold tierGet purgeTier
  split <;> (try split) <;> (try split) <;> simp_all

/-- C3 (code bug evaluation): state.get consults the memory tier first,
but when the memory entry for the key is expired, get calls state.remove,
whose first action is another state.get on the same unchanged state; the
two functions recurse into each other forever (a stack overflow in
JavaScript), for every call-stack budget. The claimed behaviour — purge
the expired entry from that tier only and continue the search — never
happens. -/
theorem get_expired_memory_diverges (s : St) (k : String) (now : Nat)
    (h : memExpiredB s k now = true) :
    ∀ fuel, getF fuel s k now = none ∧ removeF fuel s k now = none := by
  intro fuel
  induction fuel with
  | zero => exact ⟨rfl, rfl⟩
  | succ n ih =>
    unfold memExpiredB at h
    cases hm : kfind s.mem k with
    | none => rw [hm] at h; exact absurd h (by simp)
    | some sv =>
      rw [hm] at h
      have h2 : isExpired sv now = true := h
      refine ⟨?_, ?_⟩
      · simp [getF, hm, h2, ih.1]
      · simp [removeF, ih.1]

/-- Witness for C3: a concrete expired memory entry on which get and
remove return no result at depth 9. -/
theorem get_expired_memory_diverges_witness :
    getF 9 sC3 "k" 20 = none ∧ removeF 9 sC3 "k" 20 = none :=
  get_expired_memory_diverges sC3 "k" 20 (by decide) 9

/-- C4 counterexample: with a malformed session record for k and a valid
local record, get returns the local value and leaves the state — in
particular the malformed session record — completely untouched, refuting
the claim that the raw malformed record is purged from that tier. -/
theorem decode_failure_not_purged_cex :
    getF 1 sC4 "k" 0 = some (JsVal.val 7, sC4) ∧
      kfind sC4.sess "k" = some Raw.malformed := by decide

/-- C4 (amended): a persisted record that fails to decode is treated as
absent in that tier — the lookup continues to the remaining tier and get
returns without throwing — but the malformed record is left in place, not
purged (state.ts getFromStorage returns null from its catch and the
caller just falls through). -/
theorem decode_failure_treated_absent (s : St) (k : String) (now : Nat)
    (hw : s.window = true) (hm : kfind s.mem k = none)
    (hs : kfind s.sess k = some Raw.malformed) :
    ∃ r s2, tierGet s Persist.loc k now = (r, s2) ∧
      getF 1 s k now = some (r.getD JsVal.undef, s2) ∧
      s2.sess = s.sess ∧ s2.mem = s.mem ∧ s2.window = s.window := by
  have hsess : tierGet s Persist.session k now = (none, s) := by
    unfold tierGet readTier
    rw [hs, hw]
    simp
  refine ⟨(tierGet s Persist.loc k now).1, (tierGet s Persist.loc k now).2, rfl, ?_, ?_, ?_, ?_⟩
  · unfold getF
    rw [hm, hsess]
    cases hloc : tierGet s Persist.loc k now with
    | mk r s2 => cases r <;> simp [hloc]
  · exact tierGet_loc_sess s k now
  · exact (tierGet_frame s Persist.loc k now).2.1
  · exact (tierGet_frame s Persist.loc k now).1

/-- Witness for C4: the amended behaviour on the concrete two-tier state. -/
theorem decode_failure_treated_absent_witness :
    ∃ r s2, tierGet sC4 Persist.loc "k" 0 = (r, s2) ∧
      getF 1 sC4 "k" 0 = some (r.getD JsVal.undef, s2) ∧
      s2.sess = sC4.sess ∧ s2.mem = sC4.mem ∧ s2.window = sC4.window :=
  decode_failure_treated_absent sC4 "k" 0 (by decide) (by decide) (by decide)

/-- A Bool that is not false is true. -/
theorem bool_of_not_false {b : Bool} (h : ¬ b = false) : b = true := by
  cases b
  · exact absurd rfl h
  · rfl

/-- Under memOkB, the memory entry (if any) is not expired. -/
theorem memOkB_not_expired {s : St} {k : String} {now : Nat} {sv : StoredValue}
    (hmem : memOkB s k now = true) (hm : kfind s.mem k = some sv) :
    isExpired sv now = false := by
  unfold memOkB at hmem
  rw [hm] at hmem
  have hred : (!isExpired sv now) = true := hmem
  simpa using hred

/-- After the session tier yielded nothing, get at depth 1 walks the local
tier and returns, preserving window, memory, log and the session store of
the intermediate state. -/
theorem getF_locWalk (s0 s1 : St) (k : String) (now : Nat)
    (hm : kfind s0.mem k = none)
    (hts : tierGet s0 Persist.session k now = (none, s1)) :
    ∃ old s2, getF 1 s0 k now = some (old, s2) ∧ s2.window = s1.window ∧
      s2.mem = s1.mem ∧ s2.log = s1.log ∧ s2.sess = s1.sess := by
  cases htl : tierGet s1 Persist.loc k now with
  | mk o s2 =>
    have hfw := tierGet_frame s1 Persist.loc k now
    have hfs := tierGet_loc_sess s1 k now
    rw [htl] at hfw hfs
    cases o with
    | some v =>
      exact ⟨v, s2, by simp [getF, hm, hts, htl], hfw.1, hfw.2.1, hfw.2.2, hfs⟩
    | none =>
      exact ⟨JsVal.undef, s2, by simp [getF, hm, hts, htl], hfw.1, hfw.2.1, hfw.2.2, hfs⟩

/-- Under memOkB, get at depth 1 terminates; it preserves window, the
memory store and the log, and either leaves the session store alone or
purges exactly the looked-up key from it. -/
theorem getF_one_total (s : St) (k : String) (now : Nat) (hmem : memOkB s k now = true) :
    ∃ old s1, getF 1 s k now = some (old, s1) ∧ s1.window = s.window ∧ s1.mem = s.mem ∧
      s1.log = s.log ∧ (s1.sess = s.sess ∨ s1.sess = kerase s.sess k) := by
  cases hm : kfind s.mem k with
  | some sv =>
    have hexp := memOkB_not_expired hmem hm
    exact ⟨sv.value, s, by simp [getF, hm, hexp], rfl, rfl, rfl, Or.inl rfl⟩
  | none =>
    cases hw : s.window with
    | false =>
      exact ⟨JsVal.undef, s, by simp [getF, hm, tierGet, hw], hw, rfl, rfl, Or.inl rfl⟩
    | true =>
      cases hs : kfind s.sess k with
      | none =>
        have hts : tierGet s Persist.session k now = (none, s) := by
          simp [tierGet, readTier, hw, hs]
        obtain ⟨old, s2, hg, h1, h2, h3, h4⟩ := getF_locWalk s s k now hm hts
        exact ⟨old, s2, hg, h1.trans hw, h2, h3, Or.inl h4⟩
      | some r =>
        cases r with
        | malformed =>
          have hts : tierGet s Persist.session k now = (none, s) := by
            simp [tierGet, readTier, hw, hs]
          obtain ⟨old, s2, hg, h1, h2, h3, h4⟩ := getF_locWalk s s k now hm hts
          exact ⟨old, s2, hg, h1.trans hw, h2, h3, Or.inl h4⟩
        | enc sv =>
          cases hexp : isExpired sv now with
          | false =>
            have hts : tierGet s Persist.session k now = (some sv.value, s) := by
              simp [tierGet, readTier, hw, hs, hexp]
            exact ⟨sv.value, s, by simp [getF, hm, hts], hw, rfl, rfl, Or.inl rfl⟩
          | true =>
            have hts : tierGet s Persist.session k now =
                (none, { s with sess := kerase s.sess k }) := by
              simp [tierGet, readTier, purgeTier, hw, hs, hexp]
            obtain ⟨old, s2, hg, h1, h2, h3, h4⟩ := getF_locWalk s _ k now hm hts
            exact ⟨old, s2, hg, h1.trans hw, h2, h3, Or.inr h4⟩

/-- Under memOkB and sessOkB, get at depth 1 terminates and leaves window,
memory, the session store and the log untouched. -/
theorem getF_one_frame (s : St) (k : String) (now : Nat)
    (hmem : memOkB s k now = true) (hsess : sessOkB s k now = true) :
    ∃ old s1, getF 1 s k now = some (old, s1) ∧ s1.window = s.window ∧ s1.mem = s.mem ∧
      s1.log = s.log ∧ s1.sess = s.sess := by
  cases hm : kfind s.mem k with
  | some sv =>
    have hexp := memOkB_not_expired hmem hm
    exact ⟨sv.value, s, by simp [getF, hm, hexp], rfl, rfl, rfl, rfl⟩
  | none =>
    cases hw : s.window with
    | false =>
      exact ⟨JsVal.undef, s, by simp [getF, hm, tierGet, hw], hw, rfl, rfl, rfl⟩
    | true =>
      have hts : tierGet s Persist.session k now = (none, s) ∨
          ∃ v2, tierGet s Persist.session k now = (some v2, s) := by
        unfold sessOkB at hsess
        cases hs : kfind s.sess k with
        | none => exact Or.inl (by simp [tierGet, readTier, hw, hs])
        | some r =>
          cases r with
          | malformed => exact Or.inl (by simp [tierGet, readTier, hw, hs])
          | enc sv =>
            rw [hs] at hsess
            have hred : (!isExpired sv now) = true := hsess
            have hexp : isExpired sv now = false := by simpa using hred
            exact Or.inr ⟨sv.value, by simp [tierGet, readTier, hw, hs, hexp]⟩
      cases hts with
      | inl hts =>
        obtain ⟨old, s2, hg, h1, h2, h3, h4⟩ := getF_locWalk s s k now hm hts
        exact ⟨old, s2, hg, h1.trans hw, h2, h3, h4⟩
      | inr hts =>
        obtain ⟨v2, hts⟩ := hts
        exact ⟨v2, s, by simp [getF, hm, hts], hw, rfl, rfl, rfl⟩

/-- An entry freshly written by set is never already expired at the time
of the write. -/
theorem isExpired_expiryOf (v : JsVal) (ttl : Option Nat) (now : Nat) :
    isExpired ⟨v, expiryOf ttl now⟩ now = false := by
  unfold isExpired expiryOf
  cases ttl with
  | none => rfl
  | some t =>
    by_cases h : t = 0
    · simp [h]
    · simp [h]

/-- C5: a set directed at the local tier deletes any memory copy of the
key and writes the encoded entry to the local store, while a live session
copy of the same key is left completely unchanged (the session store is
untouched). Requires window (both storages available), a non-expired
memory entry if any (termination, claim C3), and a non-expired session
record if any (an expired one would be purged by the embedded oldValue
lookup, the documented lazy-expiry sweep). -/
theorem set_tier_switch_asymmetry (s : St) (k : String) (v : JsVal) (ttl : Option Nat)
    (now : Nat) (hw : s.window = true) (hmem : memOkB s k now = true)
    (hsess : sessOkB s k now = true) :
    ∃ s2, setF 1 s k v ⟨some Persist.loc, ttl⟩ now = some s2 ∧
      kfind s2.mem k = none ∧
      s2.sess = s.sess ∧
      kfind s2.loc k = some (Raw.enc ⟨v, expiryOf ttl now⟩) := by
  obtain ⟨old, s1, hget, hwin, hmm, hlog, hss⟩ := getF_one_frame s k now hmem hsess
  have hw1 : s1.window = true := by rw [hwin, hw]
  refine ⟨{ s1 with loc := kset s1.loc k (Raw.enc ⟨v, expiryOf ttl now⟩)
                    mem := kerase s1.mem k
                    log := s1.log ++ [⟨"state:" ++ k, v, old⟩] }, ?_, ?_, ?_, ?_⟩
  · unfold setF
    rw [hget]
    simp [hw1]
  · exact kfind_kerase_self s1.mem k
  · exact hss
  · exact kfind_kset_self s1.loc k _

/-- Witness for C5: concrete set to local with a live session copy. -/
theorem set_tier_switch_asymmetry_witness :
    ∃ s2, setF 1 ⟨true, [], [("k", Raw.enc ⟨JsVal.val 3, none⟩)], [], []⟩ "k" (JsVal.val 9)
        ⟨some Persist.loc, none⟩ 0 = some s2 ∧
      kfind s2.mem "k" = none ∧
      s2.sess = [("k", Raw.enc ⟨JsVal.val 3, none⟩)] ∧
      kfind s2.loc "k" = some (Raw.enc ⟨JsVal.val 9, none⟩) :=
  set_tier_switch_asymmetry ⟨true, [], [("k", Raw.enc ⟨JsVal.val 3, none⟩)], [], []⟩ "k"
    (JsVal.val 9) none 0 rfl (by decide) (by decide)

/-- C6 counterexample: with the window (hence both storages) unavailable,
a set directed at the local tier is not dropped — the value lands in the
memory store and a subsequent get returns it. -/
theorem storage_unavailable_write_not_dropped_cex :
    setF 1 sC6 "k" (JsVal.val 5) ⟨some Persist.loc, none⟩ 0 = some sC6r ∧
      getF 1 sC6r "k" 0 = some (JsVal.val 5, sC6r) ∧
      kfind sC6r.mem "k" = some ⟨JsVal.val 5, none⟩ := by decide

/-- C6 (amended): when the storage backends are unavailable (no window),
reads treat both persistent tiers as always-absent, a write directed at a
persistent tier falls back to the ephemeral memory store (it is not
dropped: the key becomes readable from memory), the persistent stores are
never touched, and no operation fails. -/
theorem storage_unavailable_degradation (s : St) (k : String) (v : JsVal)
    (opts : StateOptions) (now : Nat) (hw : s.window = false)
    (hmem : memOkB s k now = true) :
    (kfind s.mem k = none → getF 1 s k now = some (JsVal.undef, s)) ∧
    (∃ s2, setF 1 s k v opts now = some s2 ∧ s2.sess = s.sess ∧ s2.loc = s.loc ∧
      kfind s2.mem k = some ⟨v, expiryOf opts.ttl now⟩) ∧
    (∃ b, hasF 1 s k now = some b) ∧
    (∃ s3, removeF 2 s k now = some s3) := by
  have hbase : ∃ old, getF 1 s k now = some (old, s) := by
    cases hm : kfind s.mem k with
    | some sv =>
      have hexp := memOkB_not_expired hmem hm
      exact ⟨sv.value, by simp [getF, hm, hexp]⟩
    | none => exact ⟨JsVal.undef, by simp [getF, hm, tierGet, hw]⟩
  obtain ⟨old, hget⟩ := hbase
  refine ⟨?_, ?_, ?_, ?_⟩
  · intro hm
    simp [getF, hm, tierGet, hw]
  · refine ⟨{ s with mem := kset s.mem k ⟨v, expiryOf opts.ttl now⟩
                     log := s.log ++ [⟨"state:" ++ k, v, old⟩] }, ?_, rfl, rfl, ?_⟩
    · unfold setF
      rw [hget]
      simp [hw]
    · exact kfind_kset_self s.mem k _
  · exact ⟨old != JsVal.undef, by simp [hasF, hget]⟩
  · exact ⟨removeBody s k old, by simp [removeF, hget]⟩

/-- Witness for C6: the amended degradation on a concrete no-window state. -/
theorem storage_unavailable_degradation_witness :
    (kfind sC6.mem "k" = none → getF 1 sC6 "k" 0 = some (JsVal.undef, sC6)) ∧
    (∃ s2, setF 1 sC6 "k" (JsVal.val 5) ⟨some Persist.loc, none⟩ 0 = some s2 ∧
      s2.sess = sC6.sess ∧ s2.loc = sC6.loc ∧
      kfind s2.mem "k" = some ⟨JsVal.val 5, none⟩) ∧
    (∃ b, hasF 1 sC6 "k" 0 = some b) ∧
    (∃ s3, removeF 2 sC6 "k" 0 = some s3) :=
  storage_unavailable_degradation sC6 "k" (JsVal.val 5) ⟨some Persist.loc, none⟩ 0 rfl
    (by decide)

/-- The fan-out loop over plain handlers: every handler in the snapshot is
invoked in order, throwing handlers are reported, and the registry is not
changed. -/
theorem emitGo_plain (beh : Nat → HandlerBeh) (name : String) (p : Nat) (hs : List Nat)
    (hp : ∀ h ∈ hs, ∃ b, beh h = HandlerBeh.plain b) :
    ∀ l st, kfind st.handlers name = some hs → (∀ h ∈ l, h ∈ hs) →
      emitGo beh l st name p =
        ⟨st.handlers, st.trace ++ l.map (fun h => (h, p)),
          st.errors ++ l.filter (behThrows beh)⟩ := by
  intro l
  induction l with
  | nil =>
    intro st hk _
    simp [emitGo]
  | cons h rest ih =>
    intro st hk hmem
    have hh : h ∈ hs := hmem h (List.mem_cons_self h rest)
    obtain ⟨b, hb⟩ := hp h hh
    have hbt : behThrows beh h = b := by
      unfold behThrows
      rw [hb]
      cases b <;> rfl
    have hcur : h ∈ (kfind st.handlers name).getD [] := by
      rw [hk]
      exact hh
    have hinv : invokeE beh st h p =
        ⟨st.handlers, st.trace ++ [(h, p)], st.errors ++ (if b then [h] else [])⟩ := by
      unfold invokeE
      rw [hb]
      cases b <;> simp
    unfold emitGo
    rw [if_pos hcur, hinv]
    rw [ih ⟨st.handlers, st.trace ++ [(h, p)], st.errors ++ (if b then [h] else [])⟩ hk
      (fun x hx => hmem x (List.mem_cons_of_mem h hx))]
    cases b <;> simp [List.filter_cons, hbt, List.append_assoc]

/-- C7: emit synchronously invokes every currently registered listener for
exactly the emitted name, in subscription order (the trace extends by the
full handler list in order); a throwing listener is caught and reported in
the error log, the remaining listeners are still invoked, the registry is
unchanged, and emit returns normally (total function, no propagation). -/
theorem emit_fanout_isolation (beh : Nat → HandlerBeh) (st : EvState) (name : String)
    (p : Nat) (hs : List Nat) (hreg : kfind st.handlers name = some hs)
    (hp : ∀ h ∈ hs, ∃ b, beh h = HandlerBeh.plain b) :
    emitE beh st name p =
      ⟨st.handlers, st.trace ++ hs.map (fun h => (h, p)),
        st.errors ++ hs.filter (behThrows beh)⟩ := by
  unfold emitE
  rw [hreg]
  exact emitGo_plain beh name p hs hp hs st hreg (fun x hx => hx)

/-- Witness for C7: three handlers, the middle one throwing; all three are
invoked in order and only the thrower is reported. -/
theorem emit_fanout_isolation_witness :
    emitE behC7 stC7 "evt" 5 = ⟨[("evt", [1, 2, 3])], [(1, 5), (2, 5), (3, 5)], [2]⟩ :=
  emit_fanout_isolation behC7 stC7 "evt" 5 [1, 2, 3] rfl (by decide)

/-- Emitting a name whose handler Set has become empty changes nothing. -/
theorem emit_empty_set (beh : Nat → HandlerBeh) (st : EvState) (name : String) (p : Nat)
    (h : kfind st.handlers name = some []) : emitE beh st name p = st := by
  unfold emitE
  rw [h]
  rfl

/-- Emitting to a lone once wrapper: the wrapper unsubscribes itself and
then invokes the wrapped callback with the payload. -/
theorem emit_single_wrapper (beh : Nat → HandlerBeh) (st : EvState) (name : String)
    (w cb : Nat) (b : Bool) (p : Nat)
    (hreg : kfind st.handlers name = some [w])
    (hw : beh w = HandlerBeh.wrapper name w cb b) :
    emitE beh st name p =
      ⟨kset st.handlers name [], st.trace ++ [(cb, p)],
        st.errors ++ (if b then [cb] else [])⟩ := by
  have hoff : offE st name w = ⟨kset st.handlers name [], st.trace, st.errors⟩ := by
    unfold offE
    rw [hreg]
    simp
  have hinv : invokeE beh st w p =
      ⟨kset st.handlers name [], st.trace ++ [(cb, p)],
        st.errors ++ (if b then [cb] else [])⟩ := by
    unfold invokeE
    rw [hw]
    simp only [hoff]
    cases b <;> simp
  have hcur : w ∈ (kfind st.handlers name).getD [] := by
    rw [hreg]
    exact List.mem_singleton.mpr rfl
  unfold emitE
  rw [hreg]
  unfold emitGo
  rw [if_pos hcur, hinv]
  rfl

/-- C8 counterexample: once("evt", cb) registers an internal wrapper and
returns no handle; a subsequent off("evt", cb) with the original callback
removes nothing, and the callback still fires on the next emit — refuting
the claim that the once registration can be removed via off before it
fires. -/
theorem once_off_original_callback_cex :
    (emitE behC8 (offE (onE stC8 "evt" 0) "evt" 1) "evt" 7).trace = [(1, 7)] := by decide

/-- C8 (amended): a listener registered through once is invoked exactly
once — on the first emit after registration, with that emit payload —
even when the name is emitted twice synchronously; but the registration
cannot be removed through off with the original callback (once creates a
distinct wrapper and returns no handle), so off with the original
callback leaves the behaviour unchanged. -/
theorem once_semantics (beh : Nat → HandlerBeh) (st0 : EvState) (name : String)
    (w cb : Nat) (p1 p2 : Nat) (b : Bool)
    (hw : beh w = HandlerBeh.wrapper name w cb b) (hne : w ≠ cb)
    (hreg : kfind st0.handlers name = none) :
    ((emitE beh (emitE beh (onE st0 name w) name p1) name p2).trace =
      st0.trace ++ [(cb, p1)]) ∧
    ((emitE beh (emitE beh (offE (onE st0 name w) name cb) name p1) name p2).trace =
      st0.trace ++ [(cb, p1)]) := by
  have hon : onE st0 name w = ⟨st0.handlers ++ [(name, [w])], st0.trace, st0.errors⟩ := by
    unfold onE
    rw [hreg]
  have h1 : kfind (st0.handlers ++ [(name, [w])]) name = some [w] := by
    rw [kfind_append_of_none _ _ hreg]
    simp [kfind]
  constructor
  · rw [hon]
    rw [emit_single_wrapper beh _ name w cb b p1 h1 hw]
    rw [emit_empty_set beh _ name p2 (kfind_kset_self _ name [])]
  · rw [hon]
    have hoffcb : offE (⟨st0.handlers ++ [(name, [w])], st0.trace, st0.errors⟩ : EvState)
        name cb =
        ⟨kset (st0.handlers ++ [(name, [w])]) name [w], st0.trace, st0.errors⟩ := by
      unfold offE
      rw [h1]
      simp [hne]
    rw [hoffcb]
    rw [emit_single_wrapper beh _ name w cb b p1 (kfind_kset_self _ name [w]) hw]
    rw [emit_empty_set beh _ name p2 (kfind_kset_self _ name [])]

/-- Witness for C8: the amended once semantics on the concrete wrapper. -/
theorem once_semantics_witness :
    ((emitE behC8 (emitE behC8 (onE stC8 "evt" 0) "evt" 7) "evt" 9).trace =
      stC8.trace ++ [(1, 7)]) ∧
    ((emitE behC8 (emitE behC8 (offE (onE stC8 "evt" 0) "evt" 1) "evt" 7) "evt" 9).trace =
      stC8.trace ++ [(1, 7)]) :=
  once_semantics behC8 stC8 "evt" 0 1 7 9 false rfl (by decide) rfl

/-- Get at depth 1 on a non-expired memory hit returns the stored value
and changes nothing. -/
theorem getF_one_memhit (s : St) (k : String) (now : Nat) (sv : StoredValue)
    (hm : kfind s.mem k = some sv) (hexp : isExpired sv now = false) :
    getF 1 s k now = some (sv.value, s) := by
  simp [getF, hm, hexp]

/-- Get at depth 1 on a non-expired session hit (memory empty) returns the
stored value and changes nothing. -/
theorem getF_one_sesshit (s : St) (k : String) (now : Nat) (sv : StoredValue)
    (hm : kfind s.mem k = none) (hw : s.window = true)
    (hs : kfind s.sess k = some (Raw.enc sv)) (hexp : isExpired sv now = false) :
    getF 1 s k now = some (sv.value, s) := by
  have hts : tierGet s Persist.session k now = (some sv.value, s) := by
    simp [tierGet, readTier, hw, hs, hexp]
  simp [getF, hm, hts]

/-- Get at depth 1 on a non-expired local hit (memory and session empty)
returns the stored value and changes nothing. -/
theorem getF_one_lochit (s : St) (k : String) (now : Nat) (sv : StoredValue)
    (hm : kfind s.mem k = none) (hw : s.window = true)
    (hs : kfind s.sess k = none)
    (hl : kfind s.loc k = some (Raw.enc sv)) (hexp : isExpired sv now = false) :
    getF 1 s k now = some (sv.value, s) := by
  have hts : tierGet s Persist.session k now = (none, s) := by
    simp [tierGet, readTier, hw, hs]
  have htl : tierGet s Persist.loc k now = (some sv.value, s) := by
    simp [tierGet, readTier, hw, hl, hexp]
  simp [getF, hm, hts, htl]

/-- The unfolding equation of remove at positive fuel. -/
theorem removeF_succ (fuel : Nat) (s : St) (k : String) (now : Nat) :
    removeF (fuel + 1) s k now =
      match getF fuel s k now with
      | none => none
      | some (old, s1) => some (removeBody s1 k old) := rfl

/-- A remove whose embedded get sees undefined without touching the state
is a complete no-op. -/
theorem removeF_noop (s : St) (k : String) (now : Nat) (fuel : Nat)
    (h : getF fuel s k now = some (JsVal.undef, s)) :
    removeF (fuel + 1) s k now = some s := by
  rw [removeF_succ, h]
  simp [removeBody]

/-- Has is false exactly when get reports undefined. -/
theorem hasF_false_of_get_undef (s : St) (k : String) (now : Nat)
    (h : getF 1 s k now = some (JsVal.undef, s)) : hasF 1 s k now = some false := by
  simp [hasF, h]

/-- C9: clear purges every entry across every tier and emits zero events
(the log is unchanged, so no listener can be invoked), and any subsequent
get returns absent without changing the cleared state; remove of a
present key (one whose get yields a defined value) deletes the key from
the memory store and — when the storages exist — from both persistent
stores, and emits exactly one change event whose new value is undefined;
remove of an absent key (get yields undefined without state change) is a
complete no-op that emits nothing and returns normally. -/
theorem clear_silent_remove_emits (s : St) :
    (clearF s).log = s.log ∧
    (clearF s).mem = [] ∧
    (s.window = true → (clearF s).sess = [] ∧ (clearF s).loc = []) ∧
    (∀ k now, getF 1 (clearF s) k now = some (JsVal.undef, clearF s)) ∧
    (∀ k v s1 fuel now, getF fuel s k now = some (v, s1) → v ≠ JsVal.undef →
      removeF (fuel + 1) s k now = some
        { window := s1.window
          mem := kerase s1.mem k
          sess := if s1.window then kerase s1.sess k else s1.sess
          loc := if s1.window then kerase s1.loc k else s1.loc
          log := s1.log ++ [⟨"state:" ++ k, JsVal.undef, v⟩] }) ∧
    (∀ k fuel now, getF fuel s k now = some (JsVal.undef, s) →
      removeF (fuel + 1) s k now = some s) := by
  refine ⟨rfl, rfl, ?_, ?_, ?_, ?_⟩
  · intro hw
    exact ⟨by simp [clearF, hw], by simp [clearF, hw]⟩
  · intro k now
    cases hw : s.window with
    | true => simp [getF, clearF, tierGet, readTier, kfind, hw]
    | false => simp [getF, clearF, tierGet, readTier, kfind, hw]
  · intro k v s1 fuel now hget hv
    have hr : removeF (fuel + 1) s k now = some (removeBody s1 k v) := by
      rw [removeF_succ, hget]
    rw [hr]
    unfold removeBody
    rw [if_neg hv]
    cases hwin : s1.window <;> simp [hwin]
  · intro k fuel now hget
    have hr : removeF (fuel + 1) s k now = some (removeBody s k JsVal.undef) := by
      rw [removeF_succ, hget]
    rw [hr]
    simp [removeBody]

/-- Witness for C9: a cleared concrete state answers absent; remove of the
present key k deletes it everywhere and logs one event; remove of the
absent key x is a no-op. -/
theorem clear_silent_remove_emits_witness :
    getF 1 (clearF sC9) "k" 0 = some (JsVal.undef, clearF sC9) ∧
    removeF 2 sC9 "k" 0 = some
      { window := sC9.window
        mem := kerase sC9.mem "k"
        sess := if sC9.window then kerase sC9.sess "k" else sC9.sess
        loc := if sC9.window then kerase sC9.loc "k" else sC9.loc
        log := sC9.log ++ [⟨"state:" ++ "k", JsVal.undef, JsVal.val 5⟩] } ∧
    removeF 2 sC9 "x" 0 = some sC9 :=
  ⟨(clear_silent_remove_emits sC9).2.2.2.1 "k" 0,
   (clear_silent_remove_emits sC9).2.2.2.2.1 "k" (JsVal.val 5) sC9 1 0 (by decide) (by decide),
   (clear_silent_remove_emits sC9).2.2.2.2.2 "x" 1 0 (by decide)⟩

/-- C10 counterexample: set(k, undefined) directed at the local tier while
a live session copy of k exists; afterwards get returns the session value
(not undefined) and has returns true, refuting the claim for the local
tier. The hidden cause: the session tier is searched before the local
tier, and a set to local does not purge the session copy (claim C5). -/
theorem set_undefined_shadowed_cex :
    setF 1 sC10 "k" JsVal.undef ⟨some Persist.loc, none⟩ 0 = some sC10r ∧
      getF 1 sC10r "k" 0 = some (JsVal.val 5, sC10r) ∧
      hasF 1 sC10r "k" 0 = some true := by decide

/-- C10 (amended): after set(key, undefined) — to memory, to session, or
to local provided no session record for the key exists to shadow it — get
returns undefined, has returns false, and remove takes the no-op branch
(no deletion, no event, state unchanged), even though for a memory-tier
set (including the no-window fallback) an entry for the key still
physically exists in the memory store. -/
theorem undefined_indistinguishable_from_absence (s : St) (k : String)
    (opts : StateOptions) (now : Nat) (hmem : memOkB s k now = true)
    (hshadow : opts.persist = some Persist.loc → s.window = true → kfind s.sess k = none) :
    ∃ s2, setF 1 s k JsVal.undef opts now = some s2 ∧
      getF 1 s2 k now = some (JsVal.undef, s2) ∧
      hasF 1 s2 k now = some false ∧
      removeF 2 s2 k now = some s2 ∧
      ((opts.persist = none ∨ s.window = false) →
        kfind s2.mem k = some ⟨JsVal.undef, expiryOf opts.ttl now⟩) := by
  obtain ⟨old, s1, hget, hwin, hmm, hlog, hss⟩ := getF_one_total s k now hmem
  cases hw : s.window with
  | false =>
    have hw1 : s1.window = false := by rw [hwin, hw]
    refine ⟨{ s1 with mem := kset s1.mem k ⟨JsVal.undef, expiryOf opts.ttl now⟩
                      log := s1.log ++ [⟨"state:" ++ k, JsVal.undef, old⟩] }, ?_, ?_, ?_, ?_, ?_⟩
    · unfold setF
      rw [hget]
      simp [hw1]
    · exact getF_one_memhit _ k now _ (kfind_kset_self _ k _) (isExpired_expiryOf _ _ _)
    · exact hasF_false_of_get_undef _ k now
        (getF_one_memhit _ k now _ (kfind_kset_self _ k _) (isExpired_expiryOf _ _ _))
    · exact removeF_noop _ k now 1
        (getF_one_memhit _ k now _ (kfind_kset_self _ k _) (isExpired_expiryOf _ _ _))
    · intro _
      exact kfind_kset_self _ k _
  | true =>
    have hw1 : s1.window = true := by rw [hwin, hw]
    cases hper : opts.persist with
    | none =>
      refine ⟨{ s1 with mem := kset s1.mem k ⟨JsVal.undef, expiryOf opts.ttl now⟩
                        log := s1.log ++ [⟨"state:" ++ k, JsVal.undef, old⟩] }, ?_, ?_, ?_, ?_, ?_⟩
      · unfold setF
        rw [hget]
        simp [hw1, hper]
      · exact getF_one_memhit _ k now _ (kfind_kset_self _ k _) (isExpired_expiryOf _ _ _)
      · exact hasF_false_of_get_undef _ k now
          (getF_one_memhit _ k now _ (kfind_kset_self _ k _) (isExpired_expiryOf _ _ _))
      · exact removeF_noop _ k now 1
          (getF_one_memhit _ k now _ (kfind_kset_self _ k _) (isExpired_expiryOf _ _ _))
      · intro _
        exact kfind_kset_self _ k _
    | some p =>
      cases p with
      | session =>
        have hg2 : getF 1
            ({ s1 with sess := kset s1.sess k (Raw.enc ⟨JsVal.undef, expiryOf opts.ttl now⟩)
                       mem := kerase s1.mem k
                       log := s1.log ++ [⟨"state:" ++ k, JsVal.undef, old⟩] } : St) k now =
            some (JsVal.undef, _) :=
          getF_one_sesshit _ k now ⟨JsVal.undef, expiryOf opts.ttl now⟩
            (kfind_kerase_self _ k) hw1 (kfind_kset_self _ k _) (isExpired_expiryOf _ _ _)
        refine ⟨_, ?_, hg2, hasF_false_of_get_undef _ k now hg2, removeF_noop _ k now 1 hg2, ?_⟩
        · unfold setF
          rw [hget]
          simp [hw1, hper]
        · intro hcase
          cases hcase with
          | inl h => cases h
          | inr h => cases h
      | loc =>
        have hsess0 : kfind s.sess k = none := hshadow (by rw [hper]) hw
        have hsess1 : kfind s1.sess k = none := by
          cases hss with
          | inl h => rw [h]; exact hsess0
          | inr h => rw [h]; exact kfind_kerase_self _ k
        have hg2 : getF 1
            ({ s1 with loc := kset s1.loc k (Raw.enc ⟨JsVal.undef, expiryOf opts.ttl now⟩)
                       mem := kerase s1.mem k
                       log := s1.log ++ [⟨"state:" ++ k, JsVal.undef, old⟩] } : St) k now =
            some (JsVal.undef, _) :=
          getF_one_lochit _ k now ⟨JsVal.undef, expiryOf opts.ttl now⟩
            (kfind_kerase_self _ k) hw1 hsess1 (kfind_kset_self _ k _)
            (isExpired_expiryOf _ _ _)
        refine ⟨_, ?_, hg2, hasF_false_of_get_undef _ k now hg2, removeF_noop _ k now 1 hg2, ?_⟩
        · unfold setF
          rw [hget]
          simp [hw1, hper]
        · intro hcase
          cases hcase with
          | inl h => cases h
          | inr h => cases h

/-- Witness for C10: the amended behaviour on an empty windowed state with
a set of undefined to the local tier. -/
theorem undefined_indistinguishable_from_absence_witness :
    ∃ s2, setF 1 sC10w "k" JsVal.undef ⟨some Persist.loc, none⟩ 0 = some s2 ∧
      getF 1 s2 "k" 0 = some (JsVal.undef, s2) ∧
      hasF 1 s2 "k" 0 = some false ∧
      removeF 2 s2 "k" 0 = some s2 ∧
      (((⟨some Persist.loc, none⟩ : StateOptions).persist = none ∨ sC10w.window = false) →
        kfind s2.mem "k" = some ⟨JsVal.undef, expiryOf none 0⟩) :=
  undefined_indistinguishable_from_absence sC10w "k" ⟨some Persist.loc, none⟩ 0 (by decide)
    (fun _ _ => rfl)

/-- The count read after an overwriting insert. -/
theorem kget_kset (l : List (String × Nat)) (id : String) (n : Nat) :
    (kfind (kset l id n) id).getD 0 = n := by
  rw [kfind_kset_self]
  rfl

/-- A first subscription (count 0, nothing pending or live) issues exactly
one enable call and enters Enabling. -/
theorem subOn_first (st : BusState) (id : String)
    (hc : (kfind st.counts id).getD 0 = 0) (hp : id ∉ st.pending) (hl : id ∉ st.live) :
    subOn st id = { st with counts := kset st.counts id 1
                            pending := st.pending ++ [id]
                            enableCalls := st.enableCalls ++ [id] } := by
  simp only [subOn]
  rw [hc]
  simp [hp, hl]

/-- A further subscription only increments the count. -/
theorem subOn_more (st : BusState) (id : String) (c : Nat)
    (hc : (kfind st.counts id).getD 0 = c + 1) :
    subOn st id = { st with counts := kset st.counts id (c + 2) } := by
  simp only [subOn]
  rw [hc]
  simp

/-- An unsubscription that leaves the count positive only decrements. -/
theorem subOff_more (st : BusState) (id : String) (c : Nat)
    (hc : (kfind st.counts id).getD 0 = c + 2) :
    subOff st id = { st with counts := kset st.counts id (c + 1) } := by
  simp only [subOff]
  rw [hc]
  simp

/-- Removing the last listener of a Live resource issues exactly one
disable call and releases the live handle. -/
theorem subOff_last_live (st : BusState) (id : String)
    (hc : (kfind st.counts id).getD 0 = 1) (hl : id ∈ st.live) :
    subOff st id = { st with counts := kset st.counts id 0
                             live := st.live.filter (fun x => x != id)
                             disableCalls := st.disableCalls ++ [id] } := by
  simp only [subOff]
  rw [hc]
  simp [hl]

/-- Removing the last listener while the enable is still pending marks the
pending enable to be discarded and issues no disable. -/
theorem subOff_last_pending (st : BusState) (id : String)
    (hc : (kfind st.counts id).getD 0 = 1) (hl : id ∉ st.live) (hp : id ∈ st.pending)
    (hd : id ∉ st.discard) :
    subOff st id = { st with counts := kset st.counts id 0
                             discard := st.discard ++ [id] } := by
  simp only [subOff]
  rw [hc]
  simp [hl, hp, hd]

/-- A pending enable that resolves while not discarded makes the resource
Live and confirms the enable. -/
theorem resolveEnable_toLive (st : BusState) (id : String)
    (hp : id ∈ st.pending) (hd : id ∉ st.discard) :
    resolveEnable st id = { st with pending := st.pending.filter (fun x => x != id)
                                    confirms := st.confirms ++ [id]
                                    live := st.live ++ [id] } := by
  simp only [resolveEnable]
  simp [hp, hd]

/-- A pending enable that resolves after being marked discarded confirms
the enable and immediately issues the matching disable, never Live. -/
theorem resolveEnable_discarded (st : BusState) (id : String)
    (hp : id ∈ st.pending) (hd : id ∈ st.discard) :
    resolveEnable st id = { st with pending := st.pending.filter (fun x => x != id)
                                    confirms := st.confirms ++ [id]
                                    discard := st.discard.filter (fun x => x != id)
                                    disableCalls := st.disableCalls ++ [id] } := by
  simp only [resolveEnable]
  simp [hp, hd]


/-- Occurrence counting distributes over append. -/
theorem occ_append (x : String) (l1 l2 : List String) :
    occ x (l1 ++ l2) = occ x l1 + occ x l2 := by
  induction l1 with
  | nil => simp [occ]
  | cons y rest ih => simp [occ, ih]; omega

/-- Occurrences of a string in the singleton of itself. -/
theorem occ_single_self (x : String) : occ x [x] = 1 := by simp [occ]

/-- Occurrences of a string in a different singleton. -/
theorem occ_single_ne (x y : String) (h : y ≠ x) : occ x [y] = 0 := by simp [occ, h]

/-- Filtering out one string keeps membership of every other string. -/
theorem mem_filter_ne_iff (l : List String) (x y : String) (h : x ≠ y) :
    (x ∈ l.filter (fun z => z != y)) ↔ x ∈ l := by
  simp [List.mem_filter, h]

/-- The invariant transfers along a step that changes none of the
disable, live and confirm fields. -/
theorem busInv_of_same (st r : BusState) (h : busInv st)
    (hd : r.disableCalls = st.disableCalls) (hl : r.live = st.live)
    (hc : r.confirms = st.confirms) : busInv r := by
  intro i
  rw [hd, hl, hc]
  exact h i

/-- Subscription bookkeeping preserves the disable-safety invariant. -/
theorem busInv_subOn (st : BusState) (id : String) (h : busInv st) :
    busInv (subOn st id) := by
  rcases hcv : (kfind st.counts id).getD 0 with _ | c
  · by_cases hpend : id ∈ st.pending
    · have he : subOn st id = { st with counts := kset st.counts id 1
                                        discard := st.discard.filter (fun x => x != id) } := by
        simp only [subOn]
        rw [hcv]
        simp [hpend]
      rw [he]
      exact busInv_of_same st _ h rfl rfl rfl
    · by_cases hlive : id ∈ st.live
      · have he : subOn st id = { st with counts := kset st.counts id 1 } := by
          simp only [subOn]
          rw [hcv]
          simp [hpend, hlive]
        rw [he]
        exact busInv_of_same st _ h rfl rfl rfl
      · rw [subOn_first st id hcv hpend hlive]
        exact busInv_of_same st _ h rfl rfl rfl
  · rw [subOn_more st id c hcv]
    exact busInv_of_same st _ h rfl rfl rfl

/-- Unsubscription bookkeeping preserves the disable-safety invariant. -/
theorem busInv_subOff (st : BusState) (id : String) (h : busInv st) :
    busInv (subOff st id) := by
  rcases hcv : (kfind st.counts id).getD 0 with _ | c
  · have he : subOff st id = st := by
      simp only [subOff]
      rw [hcv]
      simp
    rw [he]
    exact h
  · rcases c with _ | c2
    · by_cases hlive : id ∈ st.live
      · rw [subOff_last_live st id hcv hlive]
        intro i
        have hi := h i
        by_cases hii : i = id
        · subst hii
          have hnm : i ∉ List.filter (fun x => x != i) st.live := not_mem_filter_ne st.live i
          rw [if_pos hlive] at hi
          simp only [occ_append, occ_single_self]
          rw [if_neg hnm]
          omega
        · have hmf := mem_filter_ne_iff st.live i id hii
          have hcs : occ i [id] = 0 := occ_single_ne i id (fun hcon => hii hcon.symm)
          simp only [occ_append, hcs]
          by_cases hil : i ∈ st.live
          · rw [if_pos hil] at hi
            rw [if_pos (hmf.mpr hil)]
            omega
          · rw [if_neg hil] at hi
            rw [if_neg (fun hcon => hil (hmf.mp hcon))]
            omega
      · by_cases hpend : id ∈ st.pending
        · by_cases hdis : id ∈ st.discard
          · have he : subOff st id = { st with counts := kset st.counts id 0 } := by
              simp only [subOff]
              rw [hcv]
              simp [hlive, hpend, hdis]
            rw [he]
            exact busInv_of_same st _ h rfl rfl rfl
          · rw [subOff_last_pending st id hcv hlive hpend hdis]
            exact busInv_of_same st _ h rfl rfl rfl
        · have he : subOff st id = { st with counts := kset st.counts id 0 } := by
            simp only [subOff]
            rw [hcv]
            simp [hlive, hpend]
          rw [he]
          exact busInv_of_same st _ h rfl rfl rfl
    · rw [subOff_more st id c2 hcv]
      exact busInv_of_same st _ h rfl rfl rfl

/-- Enable resolution preserves the disable-safety invariant. -/
theorem busInv_resolve (st : BusState) (id : String) (h : busInv st) :
    busInv (resolveEnable st id) := by
  by_cases hpend : id ∈ st.pending
  · by_cases hdis : id ∈ st.discard
    · rw [resolveEnable_discarded st id hpend hdis]
      intro i
      have hi := h i
      by_cases hii : i = id
      · subst hii
        simp only [occ_append, occ_single_self]
        omega
      · have hcs : occ i [id] = 0 := occ_single_ne i id (fun hcon => hii hcon.symm)
        simp only [occ_append, hcs]
        omega
    · rw [resolveEnable_toLive st id hpend hdis]
      intro i
      have hi := h i
      by_cases hii : i = id
      · subst hii
        have hml : i ∈ st.live ++ [i] := by simp
        simp only [occ_append, occ_single_self]
        rw [if_pos hml]
        split at hi <;> omega
      · have hcs : occ i [id] = 0 := occ_single_ne i id (fun hcon => hii hcon.symm)
        have hml : (i ∈ st.live ++ [id]) ↔ i ∈ st.live := by simp [hii]
        simp only [occ_append, hcs]
        by_cases hil : i ∈ st.live
        · rw [if_pos (hml.mpr hil)]
          rw [if_pos hil] at hi
          omega
        · rw [if_neg (fun hcon => hil (hml.mp hcon))]
          rw [if_neg hil] at hi
          omega
  · have he : resolveEnable st id = st := by
      simp only [resolveEnable]
      simp [hpend]
    rw [he]
    exact h

/-- Every lifecycle step preserves the disable-safety invariant. -/
theorem busInv_step (st : BusState) (op : BusOp) (h : busInv st) :
    busInv (busStep st op) := by
  cases op with
  | sub name =>
    show busInv (busOn st name)
    unfold busOn
    cases parseResource name with
    | none => exact h
    | some id => exact busInv_subOn st id h
  | unsub name =>
    show busInv (busOff st name)
    unfold busOff
    cases parseResource name with
    | none => exact h
    | some id => exact busInv_subOff st id h
  | resolve id => exact busInv_resolve st id h

/-- The invariant holds initially and therefore along every trace. -/
theorem busInv_exec (ops : List BusOp) : busInv (busExec ops initialBus) := by
  suffices hgen : ∀ l st, busInv st → busInv (busExec l st) by
    refine hgen ops initialBus ?_
    intro i
    simp [initialBus, occ]
  intro l
  induction l with
  | nil =>
    intro st h
    exact h
  | cons op rest ih =>
    intro st h
    exact ih _ (busInv_step st op h)

/-- C1: listeners on resource-backed event names with the same resource id
share one refcount across all actions (modelled from the spec, the
EventBus source being absent from src/). From Idle, subscribing two
listeners to one action name and one listener to another action name of
the same id issues exactly one enable call; resolving the enable makes
the resource Live; removing two of the three listeners issues no disable
and leaves the resource Live; removing the third and last listener across
all actions issues exactly one disable and releases the resource, with
still exactly one enable ever issued. -/
theorem resource_refcount_aggregation (s : BusState) (n1 n2 id : String)
    (h1 : parseResource n1 = some id) (h2 : parseResource n2 = some id)
    (hc : (kfind s.counts id).getD 0 = 0) (hp : id ∉ s.pending) (hl : id ∉ s.live)
    (hd : id ∉ s.discard) :
    (busOn (busOn (busOn s n1) n1) n2).enableCalls = s.enableCalls ++ [id] ∧
    (busOff (busOff (resolveEnable (busOn (busOn (busOn s n1) n1) n2) id) n1)
      n2).disableCalls = s.disableCalls ∧
    id ∈ (busOff (busOff (resolveEnable (busOn (busOn (busOn s n1) n1) n2) id) n1) n2).live ∧
    (busOff (busOff (busOff (resolveEnable (busOn (busOn (busOn s n1) n1) n2) id) n1) n2)
      n1).disableCalls = s.disableCalls ++ [id] ∧
    id ∉ (busOff (busOff (busOff (resolveEnable (busOn (busOn (busOn s n1) n1) n2) id) n1)
      n2) n1).live ∧
    (busOff (busOff (busOff (resolveEnable (busOn (busOn (busOn s n1) n1) n2) id) n1) n2)
      n1).enableCalls = s.enableCalls ++ [id] := by
  have e1 : busOn s n1 = ⟨kset s.counts id 1, s.pending ++ [id], s.discard, s.live,
      s.enableCalls ++ [id], s.disableCalls, s.confirms⟩ := by
    simp only [busOn, h1]
    exact subOn_first s id hc hp hl
  have e2 : busOn (busOn s n1) n1 = ⟨kset (kset s.counts id 1) id 2, s.pending ++ [id],
      s.discard, s.live, s.enableCalls ++ [id], s.disableCalls, s.confirms⟩ := by
    rw [e1]
    simp only [busOn, h1]
    exact subOn_more _ id 0 (kget_kset s.counts id 1)
  have e3 : busOn (busOn (busOn s n1) n1) n2 = ⟨kset (kset (kset s.counts id 1) id 2) id 3,
      s.pending ++ [id], s.discard, s.live, s.enableCalls ++ [id], s.disableCalls,
      s.confirms⟩ := by
    rw [e2]
    simp only [busOn, h2]
    exact subOn_more _ id 1 (kget_kset _ id 2)
  have e4 : resolveEnable (busOn (busOn (busOn s n1) n1) n2) id =
      ⟨kset (kset (kset s.counts id 1) id 2) id 3,
        (s.pending ++ [id]).filter (fun x => x != id), s.discard, s.live ++ [id],
        s.enableCalls ++ [id], s.disableCalls, s.confirms ++ [id]⟩ := by
    rw [e3]
    exact resolveEnable_toLive _ id (by simp) hd
  have e5 : busOff (resolveEnable (busOn (busOn (busOn s n1) n1) n2) id) n1 =
      ⟨kset (kset (kset (kset s.counts id 1) id 2) id 3) id 2,
        (s.pending ++ [id]).filter (fun x => x != id), s.discard, s.live ++ [id],
        s.enableCalls ++ [id], s.disableCalls, s.confirms ++ [id]⟩ := by
    rw [e4]
    simp only [busOff, h1]
    exact subOff_more _ id 1 (kget_kset _ id 3)
  have e6 : busOff (busOff (resolveEnable (busOn (busOn (busOn s n1) n1) n2) id) n1) n2 =
      ⟨kset (kset (kset (kset (kset s.counts id 1) id 2) id 3) id 2) id 1,
        (s.pending ++ [id]).filter (fun x => x != id), s.discard, s.live ++ [id],
        s.enableCalls ++ [id], s.disableCalls, s.confirms ++ [id]⟩ := by
    rw [e5]
    simp only [busOff, h2]
    exact subOff_more _ id 0 (kget_kset _ id 2)
  have e7 : busOff (busOff (busOff (resolveEnable (busOn (busOn (busOn s n1) n1) n2) id)
      n1) n2) n1 =
      ⟨kset (kset (kset (kset (kset (kset s.counts id 1) id 2) id 3) id 2) id 1) id 0,
        (s.pending ++ [id]).filter (fun x => x != id), s.discard,
        (s.live ++ [id]).filter (fun x => x != id),
        s.enableCalls ++ [id], s.disableCalls ++ [id], s.confirms ++ [id]⟩ := by
    rw [e6]
    simp only [busOff, h1]
    exact subOff_last_live _ id (kget_kset _ id 1) (by simp)
  refine ⟨by rw [e3], by rw [e6], by rw [e6]; simp, by rw [e7], ?_, by rw [e7]⟩
  rw [e7]
  exact not_mem_filter_ne _ id

/-- Witness for C1: the spec refcount-aggregation scenario on the posts
resource from the initial state. -/
theorem resource_refcount_aggregation_witness :
    (busOn (busOn (busOn initialBus "resource:posts:create") "resource:posts:create")
      "resource:posts:update").enableCalls = initialBus.enableCalls ++ ["posts"] ∧
    (busOff (busOff (resolveEnable (busOn (busOn (busOn initialBus "resource:posts:create")
      "resource:posts:create") "resource:posts:update") "posts") "resource:posts:create")
      "resource:posts:update").disableCalls = initialBus.disableCalls ∧
    "posts" ∈ (busOff (busOff (resolveEnable (busOn (busOn (busOn initialBus
      "resource:posts:create") "resource:posts:create") "resource:posts:update") "posts")
      "resource:posts:create") "resource:posts:update").live ∧
    (busOff (busOff (busOff (resolveEnable (busOn (busOn (busOn initialBus
      "resource:posts:create") "resource:posts:create") "resource:posts:update") "posts")
      "resource:posts:create") "resource:posts:update")
      "resource:posts:create").disableCalls = initialBus.disableCalls ++ ["posts"] ∧
    "posts" ∉ (busOff (busOff (busOff (resolveEnable (busOn (busOn (busOn initialBus
      "resource:posts:create") "resource:posts:create") "resource:posts:update") "posts")
      "resource:posts:create") "resource:posts:update") "resource:posts:create").live ∧
    (busOff (busOff (busOff (resolveEnable (busOn (busOn (busOn initialBus
      "resource:posts:create") "resource:posts:create") "resource:posts:update") "posts")
      "resource:posts:create") "resource:posts:update")
      "resource:posts:create").enableCalls = initialBus.enableCalls ++ ["posts"] :=
  resource_refcount_aggregation initialBus "resource:posts:create" "resource:posts:update"
    "posts" (by decide) (by decide) rfl (by simp [initialBus]) (by simp [initialBus])
    (by simp [initialBus])

/-- C2: race safety of the enable and disable calls (modelled from the
spec, the EventBus source being absent from src/). Subscribing and then
unsubscribing before the pending enable resolves issues no disable call
and never makes the resource Live; when the pending enable then resolves,
exactly one matching disable call is issued, the resource still never
Live, and exactly one enable was ever issued. Moreover, along every trace
from the initial state, disable is called at most as often per resource
as its enable has been confirmed — never on a resource whose enable was
never confirmed. -/
theorem enable_disable_race_safety (s : BusState) (n id : String)
    (hn : parseResource n = some id)
    (hc : (kfind s.counts id).getD 0 = 0) (hp : id ∉ s.pending) (hl : id ∉ s.live)
    (hd : id ∉ s.discard) :
    ((busOff (busOn s n) n).disableCalls = s.disableCalls ∧
     id ∉ (busOff (busOn s n) n).live ∧
     (resolveEnable (busOff (busOn s n) n) id).disableCalls = s.disableCalls ++ [id] ∧
     id ∉ (resolveEnable (busOff (busOn s n) n) id).live ∧
     (resolveEnable (busOff (busOn s n) n) id).enableCalls = s.enableCalls ++ [id]) ∧
    (∀ ops : List BusOp, ∀ i : String,
      occ i (busExec ops initialBus).disableCalls ≤
        occ i (busExec ops initialBus).confirms) := by
  have e1 : busOn s n = ⟨kset s.counts id 1, s.pending ++ [id], s.discard, s.live,
      s.enableCalls ++ [id], s.disableCalls, s.confirms⟩ := by
    simp only [busOn, hn]
    exact subOn_first s id hc hp hl
  have e2 : busOff (busOn s n) n = ⟨kset (kset s.counts id 1) id 0, s.pending ++ [id],
      s.discard ++ [id], s.live, s.enableCalls ++ [id], s.disableCalls, s.confirms⟩ := by
    rw [e1]
    simp only [busOff, hn]
    exact subOff_last_pending _ id (kget_kset _ id 1) hl (by simp) hd
  have e3 : resolveEnable (busOff (busOn s n) n) id = ⟨kset (kset s.counts id 1) id 0,
      (s.pending ++ [id]).filter (fun x => x != id),
      (s.discard ++ [id]).filter (fun x => x != id), s.live, s.enableCalls ++ [id],
      s.disableCalls ++ [id], s.confirms ++ [id]⟩ := by
    rw [e2]
    exact resolveEnable_discarded _ id (by simp) (by simp)
  refine ⟨⟨by rw [e2], by rw [e2]; exact hl, by rw [e3], by rw [e3]; exact hl,
    by rw [e3]⟩, ?_⟩
  intro ops i
  exact le_trans (Nat.le_add_right _ _) (busInv_exec ops i)

/-- Witness for C2: the race scenario on the posts resource from the
initial state, together with the global disable-safety bound. -/
theorem enable_disable_race_safety_witness :
    ((busOff (busOn initialBus "resource:posts:create") "resource:posts:create").disableCalls
      = initialBus.disableCalls ∧
     "posts" ∉ (busOff (busOn initialBus "resource:posts:create")
      "resource:posts:create").live ∧
     (resolveEnable (busOff (busOn initialBus "resource:posts:create")
      "resource:posts:create") "posts").disableCalls = initialBus.disableCalls ++ ["posts"] ∧
     "posts" ∉ (resolveEnable (busOff (busOn initialBus "resource:posts:create")
      "resource:posts:create") "posts").live ∧
     (resolveEnable (busOff (busOn initialBus "resource:posts:create")
      "resource:posts:create") "posts").enableCalls = initialBus.enableCalls ++ ["posts"]) ∧
    (∀ ops : List BusOp, ∀ i : String,
      occ i (busExec ops initialBus).disableCalls ≤
        occ i (busExec ops initialBus).confirms) :=
  enable_disable_race_safety initialBus "resource:posts:create" "posts" (by decide) rfl
    (by simp [initialBus]) (by simp [initialBus]) (by simp [initialBus])
